import Mathlib

/-!
Verification of the `df9ry/ringbuffer` repository against its
natural-language specification.

The repository contains two variants of `ringbuffer.c`:

* `Impl1` embeds the variant stored under `src/unnamed/part_000`
  (struct fields `size`, `used`, `tail`, `lost`; operations
  `rb_write_block`, `rb_write_nonblock`, `rb_read_block`,
  `rb_read_nonblock`, `rb_loose`, ...).
* `Impl2` embeds `src/ringbuffer.c`
  (struct fields `size`, `head`, `tail`, `lost`; operations
  `rb_write_syn`, `rb_write_asy`, `rb_read_syn`, `rb_read_asy`,
  `rb_loose_data`, ...).

Modelling conventions:

* Bytes are `Nat`; the arena is a `List Nat` whose length is the capacity.
* `memcpy` into the arena is `memWrite`; a write at an index at or past the
  end of the arena is undefined behaviour in C (the byte lands outside the
  allocation); it is modelled as not changing the arena, so that such bytes
  are never seen again by in-bounds reads.
* `size_t` arithmetic on the `lost` counter wraps modulo `2 ^ 64`
  (`sizeW`); index arithmetic cannot overflow for any allocatable
  capacity and is modelled on `Nat` directly.
* Calls that do not return are modelled as `Except.error`:
  `Stuck.divZero` for the `% 0` undefined behaviour, `Stuck.blocked`
  for a single-threaded execution that waits on a condition variable
  (no other thread can ever signal it) or spins forever.
* Blocking operations are modelled with their single-threaded semantics,
  which is what the claims about them (round-trip, short-read) assume.
-/

namespace RingBuffer

/-- Linux errno value `EFAULT` (bad address), as used by the code. -/
def EFAULT : Nat := 14

/-- Linux errno value `ENOMEM` (out of memory / insufficient space). -/
def ENOMEM : Nat := 12

/-- Linux errno value `E2BIG` (argument list too long / request too large). -/
def E2BIG : Nat := 7

/-- Linux errno value `EAGAIN` (try again / insufficient data). -/
def EAGAIN : Nat := 11

/-- Modulus of `size_t` arithmetic on a 64-bit target. -/
def sizeW : Nat := 2 ^ 64

/-- Reasons a C call fails to return in the model: a modulus by zero
(undefined behaviour), or a single-threaded execution that waits on a
condition variable that no other thread can signal / spins forever. -/
inductive Stuck
  | divZero
  | blocked
deriving DecidableEq

/-- `memcpy(&data[off], src, src.length)` into the arena.  `List.set`
ignores out-of-range indices, modelling bytes written past the end of the
allocation (undefined behaviour in C) as never landing inside the arena. -/
def memWrite : List Nat → Nat → List Nat → List Nat
  | data, _, [] => data
  | data, off, b :: rest => memWrite (data.set off b) (off + 1) rest

/-- `memcpy(dst, &data[off], n)` out of the arena. -/
def memRead (data : List Nat) (off n : Nat) : List Nat :=
  (List.range n).map fun i => data.getD (off + i) 0

theorem memWrite_length (src : List Nat) :
    ∀ (data : List Nat) (off : Nat), (memWrite data off src).length = data.length := by
  induction src with
  | nil => intro data off; rfl
  | cons b rest ih =>
      intro data off
      rw [memWrite, ih, List.length_set]

theorem memRead_length (data : List Nat) (off n : Nat) :
    (memRead data off n).length = n := by
  simp [memRead]

namespace Impl1

/-- `struct _ringbuffer` of `src/unnamed/part_000`: fields `size`, `used`,
`tail`, `lost` and the flexible arena `data[]`.  The pthread primitives
carry no data and are omitted; their effects are part of the operation
models. -/
structure RB where
  size : Nat
  used : Nat
  tail : Nat
  lost : Nat
  data : List Nat
deriving DecidableEq

/-- `_free`: `_rb->size - _rb->used`. -/
def _free (rb : RB) : Nat := rb.size - rb.used

/-- `_used`: `_rb->used`. -/
def _used (rb : RB) : Nat := rb.used

/-- `_put` of part_000.  The C function receives a pointer `po` and a count
`co`; every caller passes `co` equal to the number of remaining source
bytes, so the model takes the source byte list directly.  Faithful details:
`co` is clamped to the free space; `new_head` is computed with `% size`
(hence `new_head <= size` always holds when `size > 0` and the split-copy
branch is dead code, so a wrapping copy runs past the end of the arena);
`% size` with `size == 0` is undefined behaviour, modelled as
`Stuck.divZero`. -/
def _put (rb : RB) (po : List Nat) : Except Stuck (Nat × RB) :=
  if rb.size = 0 then .error .divZero
  else
    let fr := rb.size - rb.used
    let head := (rb.tail + rb.used) % rb.size
    let co := min po.length fr
    let src := po.take co
    let new_head := (head + co) % rb.size
    if new_head ≤ rb.size then
      .ok (co, { rb with data := memWrite rb.data head src, used := rb.used + co })
    else
      .ok (co, { rb with
                  data := memWrite (memWrite rb.data head (src.take (rb.size - head)))
                            0 (src.drop (rb.size - head)),
                  used := rb.used + co })

/-- `_get` of part_000: clamps `co` to `used`, returns immediately when the
clamped count is zero (before any modulus), otherwise delivers either the
contiguous run or only the first segment up to the end of the arena
(callers loop). -/
def _get (rb : RB) (co : Nat) : Except Stuck (List Nat × RB) :=
  let co1 := min co rb.used
  if co1 = 0 then .ok ([], rb)
  else if rb.size = 0 then .error .divZero
  else
    let new_tail := (rb.tail + co1) % rb.size
    if rb.tail < new_tail then
      .ok (memRead rb.data rb.tail co1,
           { rb with tail := new_tail, used := rb.used - co1 })
    else
      .ok (memRead rb.data rb.tail (rb.size - rb.tail),
           { rb with tail := 0, used := rb.used - (rb.size - rb.tail) })

/-- The freshly initialized `struct _ringbuffer` built by `rb_init` of
part_000 on its success path: `used = tail = lost = 0`; the arena is the
uninitialized `malloc` block, supplied as `mem`. -/
def rbNew (size : Nat) (mem : List Nat) : RB :=
  { size := size, used := 0, tail := 0, lost := 0, data := mem }

/-- `rb_init` of part_000 at handle level (success path of `malloc` and of
every pthread init).  It performs no check of `rb->_rb`: an already
initialized handle is overwritten with a fresh buffer and `0` is
returned. -/
def rb_init : Option RB → Nat → List Nat → Nat × Option RB
  | _, size, mem => (0, some (rbNew size mem))

/-- `rb_destroy` of part_000: `(return code, new handle, resources freed
by this call)`.  A `NULL` internal pointer yields `EFAULT` and frees
nothing; otherwise everything is released and the handle is cleared. -/
def rb_destroy : Option RB → Nat × Option RB × Bool
  | none => (EFAULT, none, false)
  | some _ => (0, none, true)

/-- `rb_write_block` of part_000 under single-threaded execution: one
`_put` under the spinlock; if bytes remain afterwards the call waits on
`rd_cond`, which no other thread can signal, so it never returns
(`Stuck.blocked`). -/
def rb_write_block (rb : RB) (po : List Nat) : Except Stuck (Nat × RB) :=
  if po.length = 0 then .ok (0, rb)
  else
    match _put rb po with
    | .error e => .error e
    | .ok (res, rb1) =>
        if 0 < po.length - res then .error .blocked
        else .ok (po.length, rb1)

/-- Loop body of `rb_read_block` (single-threaded): repeated `_get`; a
zero-byte `_get` with nothing delivered yet waits forever on `wr_cond`;
a zero-byte `_get` after a partial delivery breaks and returns the partial
count.  The fuel only bounds the recursion; `rb_read_block` supplies
enough for every reachable execution. -/
def readBlockLoop : Nat → RB → Nat → List Nat → Except Stuck (List Nat × RB)
  | 0, _, _, _ => .error .blocked
  | fuel + 1, rb, co, got =>
    if co = 0 then .ok (got, rb)
    else
      match _get rb co with
      | .error e => .error e
      | .ok (bytes, rb1) =>
          if bytes.length = 0 then
            if got.length = 0 then .error .blocked
            else .ok (got, rb1)
          else readBlockLoop fuel rb1 (co - bytes.length) (got ++ bytes)

/-- `rb_read_block` of part_000 under single-threaded execution. -/
def rb_read_block (rb : RB) (co : Nat) : Except Stuck (List Nat × RB) :=
  readBlockLoop (co + 1) rb co []

/-- Inner `while` of `rb_write_nonblock`: repeated `_put` until the
request is exhausted; a `_put` that makes no progress spins forever
(`Stuck.blocked` once the fuel is gone). -/
def writeLoop : Nat → RB → List Nat → Nat → Except Stuck (Nat × RB)
  | 0, _, _, _ => .error .blocked
  | fuel + 1, rb, po, written =>
    if po.length = 0 then .ok (written, rb)
    else
      match _put rb po with
      | .error e => .error e
      | .ok (res, rb1) => writeLoop fuel rb1 (po.drop res) (written + res)

/-- `rb_write_nonblock` of part_000: `-E2BIG` when the request exceeds the
capacity, `-ENOMEM` (and no state change) when it exceeds the free space,
otherwise the whole request is written and its length returned. -/
def rb_write_nonblock (rb : RB) (po : List Nat) : Except Stuck (Int × RB) :=
  if rb.size < po.length then .ok (-(E2BIG : Int), rb)
  else if po.length ≤ rb.size - rb.used then
    match writeLoop (po.length + 1) rb po 0 with
    | .error e => .error e
    | .ok (w, rb1) => .ok ((w : Int), rb1)
  else .ok (-(ENOMEM : Int), rb)

/-- Inner `while` of `rb_read_nonblock`: repeated `_get` until the request
is exhausted. -/
def readLoop : Nat → RB → Nat → List Nat → Except Stuck (List Nat × RB)
  | 0, _, _, _ => .error .blocked
  | fuel + 1, rb, co, got =>
    if co = 0 then .ok (got, rb)
    else
      match _get rb co with
      | .error e => .error e
      | .ok (bytes, rb1) => readLoop fuel rb1 (co - bytes.length) (got ++ bytes)

/-- `rb_read_nonblock` of part_000: `-E2BIG` when the request exceeds the
capacity, `-EAGAIN` (and no state change) when it exceeds the used count,
otherwise exactly the requested bytes are delivered and counted. -/
def rb_read_nonblock (rb : RB) (co : Nat) : Except Stuck (Int × List Nat × RB) :=
  if rb.size < co then .ok (-(E2BIG : Int), [], rb)
  else if co ≤ rb.used then
    match readLoop (co + 1) rb co [] with
    | .error e => .error e
    | .ok (got, rb1) => .ok ((got.length : Int), got, rb1)
  else .ok (-(EAGAIN : Int), [], rb)

/-- `rb_clear` of part_000: `used = tail = lost = 0`, arena untouched. -/
def rb_clear (rb : RB) : RB :=
  { rb with used := 0, tail := 0, lost := 0 }

/-- `rb_get_lost` of part_000: `EFAULT` (a positive `size_t`!) when the
internal pointer is unset, the counter value otherwise. -/
def rb_get_lost : Option RB → Nat
  | none => EFAULT
  | some rb => rb.lost

/-- `rb_clear_lost` of part_000: returns the previous total and resets the
counter; `EFAULT` as a positive `size_t` on an unset handle. -/
def rb_clear_lost : Option RB → Nat × Option RB
  | none => (EFAULT, none)
  | some rb => (rb.lost, some { rb with lost := 0 })

/-- `rb_loose` of part_000: `_rb->lost += loose` (with `size_t` wraparound)
and the new total is returned; `EFAULT` as a positive `size_t` on an unset
handle. -/
def rb_loose : Option RB → Nat → Nat × Option RB
  | none, _ => (EFAULT, none)
  | some rb, n =>
      ((rb.lost + n) % sizeW, some { rb with lost := (rb.lost + n) % sizeW })

end Impl1

namespace Impl2

/-- `struct _ringbuffer` of `src/ringbuffer.c`: fields `size`, `head`,
`tail`, `lost` and the flexible arena `data[]`. -/
structure RB where
  size : Nat
  head : Nat
  tail : Nat
  lost : Nat
  data : List Nat
deriving DecidableEq

/-- `_avail` of ringbuffer.c. -/
def _avail (rb : RB) : Nat :=
  if rb.tail ≤ rb.head then rb.size - (rb.head - rb.tail) else rb.tail - rb.head

/-- `_length` of ringbuffer.c. -/
def _length (rb : RB) : Nat :=
  if rb.tail ≤ rb.head then rb.head - rb.tail else rb.size - (rb.tail - rb.head)

/-- `_put` of ringbuffer.c: contiguous copy when `head + co < size`,
otherwise a split copy around the end of the arena.  Callers pass the
source bytes for `po`/`co`. -/
def _put (rb : RB) (src : List Nat) : RB :=
  let new_head := rb.head + src.length
  if new_head < rb.size then
    { rb with data := memWrite rb.data rb.head src, head := new_head }
  else
    { rb with
        data := memWrite (memWrite rb.data rb.head (src.take (rb.size - rb.head)))
                  0 (src.drop (rb.size - rb.head)),
        head := new_head - rb.size }

/-- `_get` of ringbuffer.c.  When `tail <= head` it delivers the
contiguous run; otherwise it clamps to `head`, reads from `data[0]` and
sets `tail = co`. -/
def _get (rb : RB) (co : Nat) : List Nat × RB :=
  if rb.tail ≤ rb.head then
    let co1 := min co (rb.head - rb.tail)
    (memRead rb.data rb.tail co1, { rb with tail := rb.tail + co1 })
  else
    let co1 := min co rb.head
    (memRead rb.data 0 co1, { rb with tail := co1 })

/-- `_rb_write` of ringbuffer.c: clamps the request to `_avail` and copies
that many bytes; returns the clamped count. -/
def _rb_write (rb : RB) (src : List Nat) : Nat × RB :=
  let co := min src.length (_avail rb)
  if 0 < co then (co, _put rb (src.take co)) else (co, rb)

/-- Inner `while` of `_rb_read` of ringbuffer.c (fuel-bounded; a `_get`
that makes no progress spins forever). -/
def readLoop : Nat → RB → Nat → List Nat → Option (List Nat × RB)
  | 0, _, _, _ => none
  | fuel + 1, rb, co, got =>
    if co = 0 then some (got, rb)
    else
      let r := _get rb co
      readLoop fuel r.2 (co - r.1.length) (got ++ r.1)

/-- `_rb_read` of ringbuffer.c: clamps the request to `_length`, loops
`_get`, and returns the original `_length` value (not the delivered
count). -/
def _rb_read (rb : RB) (co : Nat) : Option (Nat × List Nat × RB) :=
  let len := _length rb
  match readLoop (min co len + 1) rb (min co len) [] with
  | none => none
  | some (got, rb1) => some (len, got, rb1)

/-- `rb_write_asy` of ringbuffer.c: `-EFAULT` on an unset handle,
otherwise `_rb_write` under the spinlock — the return value is the
possibly clamped count, never an error for an oversized request. -/
def rb_write_asy : Option RB → List Nat → Int × Option RB
  | none, _ => (-(EFAULT : Int), none)
  | some rb, src =>
      ((_rb_write rb src).1, some (_rb_write rb src).2)

/-- `rb_read_asy` of ringbuffer.c: `-EFAULT` on an unset handle, otherwise
`_rb_read` under the spinlock; the value returned is `_length`, not the
requested count, and no occupancy error is ever reported. -/
def rb_read_asy : Option RB → Nat → Option (Int × List Nat × Option RB)
  | none, _ => some (-(EFAULT : Int), [], none)
  | some rb, co =>
      match _rb_read rb co with
      | none => none
      | some (len, got, rb1) => some ((len : Int), got, some rb1)

/-- `rb_init` of ringbuffer.c at handle level (success path): a live
handle is rejected with `EFAULT` and left untouched; otherwise a fresh
buffer with `head = tail = lost = 0` is installed.  (Note the C code never
stores `size` on this path; the model keeps the requested size, which only
strengthens any counterexample drawn from it.) -/
def rb_init : Option RB → Nat → List Nat → Nat × Option RB
  | some rb, _, _ => (EFAULT, some rb)
  | none, size, mem =>
      (0, some { size := size, head := 0, tail := 0, lost := 0, data := mem })

/-- Outcome of `rb_destroy` of ringbuffer.c. -/
inductive DestroyOutcome
  | ok
  | fault
  | nullDeref
deriving DecidableEq

/-- `rb_destroy` of ringbuffer.c: the null check is inverted
(`if (rb->_rb) return EFAULT;`), so a live handle is rejected with
`EFAULT` and kept, while a `NULL` handle falls through into
`pthread_cond_destroy(&_rb->wr_cond)` on a `NULL` pointer (undefined
behaviour).  Third component: resources freed by this call. -/
def rb_destroy : Option RB → DestroyOutcome × Option RB × Bool
  | some rb => (.fault, some rb, false)
  | none => (.nullDeref, none, false)

/-- `rb_get_lost` of ringbuffer.c: `EFAULT` as a positive `size_t` on an
unset handle. -/
def rb_get_lost : Option RB → Nat
  | none => EFAULT
  | some rb => rb.lost

/-- `rb_clear_lost` of ringbuffer.c. -/
def rb_clear_lost : Option RB → Nat × Option RB
  | none => (EFAULT, none)
  | some rb => (rb.lost, some { rb with lost := 0 })

/-- `rb_loose_data` of ringbuffer.c: computes `lost + loose` and returns
it, but never stores it back — the field `lost` is left unchanged. -/
def rb_loose_data : Option RB → Nat → Nat × Option RB
  | none, _ => (EFAULT, none)
  | some rb, n => ((rb.lost + n) % sizeW, some rb)

end Impl2

namespace Impl1

/-- Operations of the part_000 surface that can run on a live buffer,
used to state the all-sequences invariant claim. -/
inductive Op
  | writeBlock (po : List Nat)
  | writeNonblock (po : List Nat)
  | readBlock (co : Nat)
  | readNonblock (co : Nat)
  | clear
  | loose (n : Nat)
  | clearLost
  | getLost
  | getSize
  | getUsed
  | getFree

/-- One call on a live buffer; `.error` when the call does not return. -/
def step (rb : RB) : Op → Except Stuck RB
  | .writeBlock po =>
      match rb_write_block rb po with
      | .error e => .error e
      | .ok r => .ok r.2
  | .writeNonblock po =>
      match rb_write_nonblock rb po with
      | .error e => .error e
      | .ok r => .ok r.2
  | .readBlock co =>
      match rb_read_block rb co with
      | .error e => .error e
      | .ok r => .ok r.2
  | .readNonblock co =>
      match rb_read_nonblock rb co with
      | .error e => .error e
      | .ok r => .ok r.2.2
  | .clear => .ok (rb_clear rb)
  | .loose n => .ok ((rb_loose (some rb) n).2.getD rb)
  | .clearLost => .ok ((rb_clear_lost (some rb)).2.getD rb)
  | .getLost => .ok rb
  | .getSize => .ok rb
  | .getUsed => .ok rb
  | .getFree => .ok rb

/-- A sequence of calls on a live buffer; stops at the first call that
does not return. -/
def run (rb : RB) : List Op → Except Stuck RB
  | [] => .ok rb
  | op :: ops =>
      match step rb op with
      | .error e => .error e
      | .ok rb1 => run rb1 ops

end Impl1

/-! ## Behaviour lemmas for part_000 -/

/-- On a buffer of positive capacity, `_put` always takes the contiguous
branch (the split branch is dead code): it writes the clamped prefix at
the derived head position and advances `used`. -/
theorem put_eq (rb : Impl1.RB) (po : List Nat) (hs : 0 < rb.size) :
    Impl1._put rb po
      = .ok (min po.length (rb.size - rb.used),
             { rb with
                data := memWrite rb.data ((rb.tail + rb.used) % rb.size)
                          (po.take (min po.length (rb.size - rb.used))),
                used := rb.used + min po.length (rb.size - rb.used) }) := by
  have h0 : ¬ rb.size = 0 := by omega
  have h1 : ((rb.tail + rb.used) % rb.size + min po.length (rb.size - rb.used)) % rb.size
      ≤ rb.size := le_of_lt (Nat.mod_lt _ hs)
  simp only [Impl1._put, if_neg h0, if_pos h1]

/-- `_put` preserves `used ≤ size` and `tail < size`. -/
theorem put_inv (rb : Impl1.RB) (po : List Nat) (res : Nat) (rb1 : Impl1.RB)
    (hu : rb.used ≤ rb.size) (ht : rb.tail < rb.size)
    (h : Impl1._put rb po = .ok (res, rb1)) :
    rb1.used ≤ rb1.size ∧ rb1.tail < rb1.size := by
  have hs : 0 < rb.size := by omega
  rw [put_eq rb po hs] at h
  simp only [Except.ok.injEq, Prod.mk.injEq] at h
  obtain ⟨-, h2⟩ := h
  subst h2
  have := Nat.min_le_right po.length (rb.size - rb.used)
  constructor <;> simp <;> omega

/-- `_get` preserves `used ≤ size` and `tail < size`. -/
theorem get_inv (rb : Impl1.RB) (co : Nat) (bytes : List Nat) (rb1 : Impl1.RB)
    (hu : rb.used ≤ rb.size) (ht : rb.tail < rb.size)
    (h : Impl1._get rb co = .ok (bytes, rb1)) :
    rb1.used ≤ rb1.size ∧ rb1.tail < rb1.size := by
  have hs : 0 < rb.size := by omega
  simp only [Impl1._get] at h
  split at h
  · simp only [Except.ok.injEq, Prod.mk.injEq] at h
    obtain ⟨-, h2⟩ := h
    subst h2
    exact ⟨hu, ht⟩
  · split at h
    · exact absurd h (by simp)
    · have hmod := Nat.mod_lt (rb.tail + min co rb.used) hs
      split at h <;>
        · simp only [Except.ok.injEq, Prod.mk.injEq] at h
          obtain ⟨-, h2⟩ := h
          subst h2
          constructor <;> simp <;> omega

/-- On a request of at most `used`, `_get` makes progress: it delivers a
nonempty prefix of the occupied region, decrements `used` by the delivered
count and advances `tail` by it modulo the capacity. -/
theorem get_progress (rb : Impl1.RB) (co : Nat)
    (hu : rb.used ≤ rb.size) (ht : rb.tail < rb.size)
    (hco : 0 < co) (hcu : co ≤ rb.used) :
    ∃ d rb1, Impl1._get rb co = .ok (memRead rb.data rb.tail d, rb1) ∧
      0 < d ∧ d ≤ co ∧ rb1.used = rb.used - d ∧
      rb1.tail = (rb.tail + d) % rb.size ∧ rb1.size = rb.size ∧ rb1.data = rb.data := by
  have hs : 0 < rb.size := by omega
  have hmin : min co rb.used = co := Nat.min_eq_left hcu
  by_cases hb : rb.tail < (rb.tail + co) % rb.size
  · refine ⟨co, { rb with tail := (rb.tail + co) % rb.size, used := rb.used - co },
      ?_, hco, le_refl co, rfl, rfl, rfl, rfl⟩
    simp only [Impl1._get, hmin, if_neg (by omega : ¬ co = 0),
      if_neg (by omega : ¬ rb.size = 0), if_pos hb]
  · have hwrap : rb.size ≤ rb.tail + co := by
      by_contra hlt
      rw [Nat.mod_eq_of_lt (by omega)] at hb
      omega
    refine ⟨rb.size - rb.tail,
      { rb with tail := 0, used := rb.used - (rb.size - rb.tail) },
      ?_, by omega, by omega, rfl, ?_, rfl, rfl⟩
    · simp only [Impl1._get, hmin, if_neg (by omega : ¬ co = 0),
        if_neg (by omega : ¬ rb.size = 0), if_neg hb]
    · show 0 = (rb.tail + (rb.size - rb.tail)) % rb.size
      rw [show rb.tail + (rb.size - rb.tail) = rb.size by omega, Nat.mod_self]

/-- The inner read loop of `rb_read_nonblock`: with a request of at most
`used` and enough fuel it delivers exactly the requested count, and the
final `used` and `tail` are as the claim states. -/
theorem readLoop_spec (fuel : Nat) : ∀ (co : Nat) (rb : Impl1.RB) (got : List Nat),
    rb.used ≤ rb.size → rb.tail < rb.size → co ≤ rb.used → co < fuel →
    ∃ out rb1, Impl1.readLoop fuel rb co got = .ok (out, rb1) ∧
      out.length = got.length + co ∧ rb1.used = rb.used - co ∧
      rb1.tail = (rb.tail + co) % rb.size ∧ rb1.size = rb.size := by
  induction fuel with
  | zero => intro co rb got _ _ _ hf; omega
  | succ n ih =>
      intro co rb got hu ht hcu hf
      by_cases hc : co = 0
      · subst hc
        refine ⟨got, rb, by simp [Impl1.readLoop], by omega, by omega, ?_, rfl⟩
        rw [Nat.add_zero, Nat.mod_eq_of_lt ht]
      · obtain ⟨d, rb1, hget, hd0, hdco, hused, htail, hsize, hdata⟩ :=
          get_progress rb co hu ht (by omega) hcu
        have hlen : (memRead rb.data rb.tail d).length = d := memRead_length _ _ _
        have hstep : Impl1.readLoop (n + 1) rb co got
            = Impl1.readLoop n rb1 (co - (memRead rb.data rb.tail d).length)
                (got ++ memRead rb.data rb.tail d) := by
          rw [Impl1.readLoop, if_neg hc, hget]
        rw [hlen] at hstep
        obtain ⟨out, rb2, hloop, hol, hou, hot, hos⟩ :=
          ih (co - d) rb1 (got ++ memRead rb.data rb.tail d)
            (by omega) (by rw [htail, hsize]; exact Nat.mod_lt _ (by omega))
            (by omega) (by omega)
        refine ⟨out, rb2, by rw [hstep, hloop], ?_, by omega, ?_, by omega⟩
        · rw [hol, List.length_append, hlen]; omega
        · rw [hot, htail, hsize, Nat.mod_add_mod,
            show rb.tail + d + (co - d) = rb.tail + co by omega]

/-- One-step unfolding of `readBlockLoop` when `_get` returns. -/
theorem readBlockLoop_step (n : Nat) (rb rbx : Impl1.RB) (co : Nat) (got bytes : List Nat)
    (hc : ¬ co = 0) (hg : Impl1._get rb co = .ok (bytes, rbx)) :
    Impl1.readBlockLoop (n + 1) rb co got
      = if bytes.length = 0 then
          (if got.length = 0 then .error .blocked else .ok (got, rbx))
        else Impl1.readBlockLoop n rbx (co - bytes.length) (got ++ bytes) := by
  rw [Impl1.readBlockLoop, if_neg hc, hg]

/-- One-step unfolding of `readBlockLoop` when `_get` hits undefined
behaviour. -/
theorem readBlockLoop_err (n : Nat) (rb : Impl1.RB) (co : Nat) (got : List Nat) (e : Stuck)
    (hc : ¬ co = 0) (hg : Impl1._get rb co = .error e) :
    Impl1.readBlockLoop (n + 1) rb co got = .error e := by
  rw [Impl1.readBlockLoop, if_neg hc, hg]

/-- One-step unfolding of `readLoop` when `_get` returns. -/
theorem readLoop_err (n : Nat) (rb : Impl1.RB) (co : Nat) (got : List Nat) (e : Stuck)
    (hc : ¬ co = 0) (hg : Impl1._get rb co = .error e) :
    Impl1.readLoop (n + 1) rb co got = .error e := by
  rw [Impl1.readLoop, if_neg hc, hg]

/-- One-step unfolding of `writeLoop` when `_put` returns. -/
theorem writeLoop_step (n : Nat) (rb rbx : Impl1.RB) (po : List Nat) (w res : Nat)
    (hp : ¬ po.length = 0) (hput : Impl1._put rb po = .ok (res, rbx)) :
    Impl1.writeLoop (n + 1) rb po w = Impl1.writeLoop n rbx (po.drop res) (w + res) := by
  rw [Impl1.writeLoop, if_neg hp, hput]

/-- One-step unfolding of `writeLoop` when `_put` hits undefined
behaviour. -/
theorem writeLoop_err (n : Nat) (rb : Impl1.RB) (po : List Nat) (w : Nat) (e : Stuck)
    (hp : ¬ po.length = 0) (hput : Impl1._put rb po = .error e) :
    Impl1.writeLoop (n + 1) rb po w = .error e := by
  rw [Impl1.writeLoop, if_neg hp, hput]

/-- `writeLoop` on an exhausted request returns immediately. -/
theorem writeLoop_nil (fuel : Nat) (rb : Impl1.RB) (w : Nat) (hf : 0 < fuel) :
    Impl1.writeLoop fuel rb [] w = .ok (w, rb) := by
  rcases fuel with _ | m
  · omega
  · rw [Impl1.writeLoop]
    rfl

/-- The inner write loop of `rb_write_nonblock`: when the request fits in
the free space, a single `_put` transfers all of it; the loop returns the
full length, `used` grows by it and `tail` is untouched. -/
theorem writeLoop_complete (rb : Impl1.RB) (po : List Nat)
    (hu : rb.used ≤ rb.size) (ht : rb.tail < rb.size)
    (hle : po.length ≤ rb.size - rb.used) :
    ∃ rb1, Impl1.writeLoop (po.length + 1) rb po 0 = .ok (po.length, rb1) ∧
      rb1.used = rb.used + po.length ∧ rb1.tail = rb.tail ∧ rb1.size = rb.size := by
  by_cases hpo0 : po.length = 0
  · refine ⟨rb, ?_, by omega, rfl, rfl⟩
    rw [Impl1.writeLoop, if_pos hpo0, hpo0]
  · have hs : 0 < rb.size := by omega
    have hmin : min po.length (rb.size - rb.used) = po.length := Nat.min_eq_left hle
    have hput := put_eq rb po hs
    rw [hmin] at hput
    refine ⟨{ rb with
        data := memWrite rb.data ((rb.tail + rb.used) % rb.size) (po.take po.length),
        used := rb.used + po.length }, ?_, rfl, rfl, rfl⟩
    rw [writeLoop_step po.length rb _ po 0 po.length hpo0 hput,
      List.drop_length, writeLoop_nil po.length _ _ (by omega), Nat.zero_add]

/-! ## Invariant preservation for every operation of part_000 -/

/-- `rb_write_block` (single-threaded) preserves the invariants. -/
theorem write_block_inv (rb : Impl1.RB) (po : List Nat) (n : Nat) (rb1 : Impl1.RB)
    (hu : rb.used ≤ rb.size) (ht : rb.tail < rb.size)
    (h : Impl1.rb_write_block rb po = .ok (n, rb1)) :
    rb1.used ≤ rb1.size ∧ rb1.tail < rb1.size := by
  unfold Impl1.rb_write_block at h
  split at h
  · simp only [Except.ok.injEq, Prod.mk.injEq] at h
    obtain ⟨-, h2⟩ := h
    subst h2
    exact ⟨hu, ht⟩
  · rcases hp : Impl1._put rb po with e | ⟨res, rbP⟩
    · rw [hp] at h
      exact absurd
        (show (Except.error e : Except Stuck (Nat × Impl1.RB)) = .ok (n, rb1) from h)
        (by simp)
    · rw [hp] at h
      replace h : (if 0 < po.length - res then
            (Except.error Stuck.blocked : Except Stuck (Nat × Impl1.RB))
          else .ok (po.length, rbP)) = .ok (n, rb1) := h
      split at h
      · exact absurd h (by simp)
      · simp only [Except.ok.injEq, Prod.mk.injEq] at h
        obtain ⟨-, h2⟩ := h
        subst h2
        exact put_inv rb po res rbP hu ht hp

/-- `readBlockLoop` preserves the invariants. -/
theorem read_block_loop_inv (fuel : Nat) :
    ∀ (co : Nat) (rb : Impl1.RB) (got out : List Nat) (rb1 : Impl1.RB),
    rb.used ≤ rb.size → rb.tail < rb.size →
    Impl1.readBlockLoop fuel rb co got = .ok (out, rb1) →
    rb1.used ≤ rb1.size ∧ rb1.tail < rb1.size := by
  induction fuel with
  | zero =>
      intro co rb got out rb1 _ _ h
      exact absurd h (by simp [Impl1.readBlockLoop])
  | succ n ih =>
      intro co rb got out rb1 hu ht h
      by_cases hc : co = 0
      · rw [Impl1.readBlockLoop, if_pos hc] at h
        simp only [Except.ok.injEq, Prod.mk.injEq] at h
        obtain ⟨-, h2⟩ := h
        subst h2
        exact ⟨hu, ht⟩
      · rcases hg : Impl1._get rb co with e | ⟨bytes, rbx⟩
        · rw [readBlockLoop_err n rb co got e hc hg] at h
          exact absurd h (by simp)
        · have hr := get_inv rb co bytes rbx hu ht hg
          rw [readBlockLoop_step n rb rbx co got bytes hc hg] at h
          split at h
          · split at h
            · exact absurd h (by simp)
            · simp only [Except.ok.injEq, Prod.mk.injEq] at h
              obtain ⟨-, h2⟩ := h
              subst h2
              exact hr
          · exact ih _ _ _ _ _ hr.1 hr.2 h

/-- `writeLoop` preserves the invariants. -/
theorem write_loop_inv (fuel : Nat) :
    ∀ (po : List Nat) (w : Nat) (rb : Impl1.RB) (n : Nat) (rb1 : Impl1.RB),
    rb.used ≤ rb.size → rb.tail < rb.size →
    Impl1.writeLoop fuel rb po w = .ok (n, rb1) →
    rb1.used ≤ rb1.size ∧ rb1.tail < rb1.size := by
  induction fuel with
  | zero =>
      intro po w rb n rb1 _ _ h
      exact absurd h (by simp [Impl1.writeLoop])
  | succ m ih =>
      intro po w rb n rb1 hu ht h
      by_cases hp0 : po.length = 0
      · rw [Impl1.writeLoop, if_pos hp0] at h
        simp only [Except.ok.injEq, Prod.mk.injEq] at h
        obtain ⟨-, h2⟩ := h
        subst h2
        exact ⟨hu, ht⟩
      · rcases hp : Impl1._put rb po with e | ⟨res, rbP⟩
        · rw [writeLoop_err m rb po w e hp0 hp] at h
          exact absurd h (by simp)
        · have hr := put_inv rb po res rbP hu ht hp
          rw [writeLoop_step m rb rbP po w res hp0 hp] at h
          exact ih _ _ _ _ _ hr.1 hr.2 h

/-- `readLoop` preserves the invariants. -/
theorem read_loop_inv (fuel : Nat) :
    ∀ (co : Nat) (rb : Impl1.RB) (got out : List Nat) (rb1 : Impl1.RB),
    rb.used ≤ rb.size → rb.tail < rb.size →
    Impl1.readLoop fuel rb co got = .ok (out, rb1) →
    rb1.used ≤ rb1.size ∧ rb1.tail < rb1.size := by
  induction fuel with
  | zero =>
      intro co rb got out rb1 _ _ h
      exact absurd h (by simp [Impl1.readLoop])
  | succ n ih =>
      intro co rb got out rb1 hu ht h
      by_cases hc : co = 0
      · rw [Impl1.readLoop, if_pos hc] at h
        simp only [Except.ok.injEq, Prod.mk.injEq] at h
        obtain ⟨-, h2⟩ := h
        subst h2
        exact ⟨hu, ht⟩
      · rcases hg : Impl1._get rb co with e | ⟨bytes, rbx⟩
        · rw [readLoop_err n rb co got e hc hg] at h
          exact absurd h (by simp)
        · have hr := get_inv rb co bytes rbx hu ht hg
          rw [Impl1.readLoop, if_neg hc, hg] at h
          exact ih _ _ _ _ _ hr.1 hr.2 h

/-- `rb_write_nonblock` preserves the invariants. -/
theorem write_nonblock_inv (rb : Impl1.RB) (po : List Nat) (v : Int) (rb1 : Impl1.RB)
    (hu : rb.used ≤ rb.size) (ht : rb.tail < rb.size)
    (h : Impl1.rb_write_nonblock rb po = .ok (v, rb1)) :
    rb1.used ≤ rb1.size ∧ rb1.tail < rb1.size := by
  unfold Impl1.rb_write_nonblock at h
  split at h
  · simp only [Except.ok.injEq, Prod.mk.injEq] at h
    obtain ⟨-, h2⟩ := h
    subst h2
    exact ⟨hu, ht⟩
  · split at h
    · rcases hl : Impl1.writeLoop (po.length + 1) rb po 0 with e | ⟨w, rbW⟩
      · rw [hl] at h
        exact absurd
          (show (Except.error e : Except Stuck (Int × Impl1.RB)) = .ok (v, rb1) from h)
          (by simp)
      · rw [hl] at h
        replace h : (Except.ok ((w : Int), rbW) : Except Stuck (Int × Impl1.RB))
            = .ok (v, rb1) := h
        simp only [Except.ok.injEq, Prod.mk.injEq] at h
        obtain ⟨-, h2⟩ := h
        subst h2
        exact write_loop_inv (po.length + 1) po 0 rb w rbW hu ht hl
    · simp only [Except.ok.injEq, Prod.mk.injEq] at h
      obtain ⟨-, h2⟩ := h
      subst h2
      exact ⟨hu, ht⟩

/-- `rb_read_nonblock` preserves the invariants. -/
theorem read_nonblock_inv (rb : Impl1.RB) (co : Nat) (v : Int) (got : List Nat)
    (rb1 : Impl1.RB)
    (hu : rb.used ≤ rb.size) (ht : rb.tail < rb.size)
    (h : Impl1.rb_read_nonblock rb co = .ok (v, got, rb1)) :
    rb1.used ≤ rb1.size ∧ rb1.tail < rb1.size := by
  unfold Impl1.rb_read_nonblock at h
  split at h
  · simp only [Except.ok.injEq, Prod.mk.injEq] at h
    obtain ⟨-, -, h2⟩ := h
    subst h2
    exact ⟨hu, ht⟩
  · split at h
    · rcases hl : Impl1.readLoop (co + 1) rb co [] with e | ⟨g, rbR⟩
      · rw [hl] at h
        exact absurd
          (show (Except.error e : Except Stuck (Int × List Nat × Impl1.RB))
              = .ok (v, got, rb1) from h)
          (by simp)
      · rw [hl] at h
        replace h : (Except.ok ((g.length : Int), g, rbR)
              : Except Stuck (Int × List Nat × Impl1.RB)) = .ok (v, got, rb1) := h
        simp only [Except.ok.injEq, Prod.mk.injEq] at h
        obtain ⟨-, -, h2⟩ := h
        subst h2
        exact read_loop_inv (co + 1) co rb [] g rbR hu ht hl
    · simp only [Except.ok.injEq, Prod.mk.injEq] at h
      obtain ⟨-, -, h2⟩ := h
      subst h2
      exact ⟨hu, ht⟩

/-- Each single call of the part_000 surface preserves the invariants. -/
theorem step_inv (rb : Impl1.RB) (op : Impl1.Op) (rb1 : Impl1.RB)
    (hu : rb.used ≤ rb.size) (ht : rb.tail < rb.size)
    (h : Impl1.step rb op = .ok rb1) :
    rb1.used ≤ rb1.size ∧ rb1.tail < rb1.size := by
  cases op with
  | writeBlock po =>
      rw [Impl1.step] at h
      rcases hw : Impl1.rb_write_block rb po with e | ⟨n2, rb2⟩
      · rw [hw] at h
        exact absurd (show (Except.error e : Except Stuck Impl1.RB) = .ok rb1 from h)
          (by simp)
      · rw [hw] at h
        replace h : (Except.ok rb2 : Except Stuck Impl1.RB) = .ok rb1 := h
        simp only [Except.ok.injEq] at h
        subst h
        exact write_block_inv rb po n2 rb2 hu ht hw
  | writeNonblock po =>
      rw [Impl1.step] at h
      rcases hw : Impl1.rb_write_nonblock rb po with e | ⟨v, rb2⟩
      · rw [hw] at h
        exact absurd (show (Except.error e : Except Stuck Impl1.RB) = .ok rb1 from h)
          (by simp)
      · rw [hw] at h
        replace h : (Except.ok rb2 : Except Stuck Impl1.RB) = .ok rb1 := h
        simp only [Except.ok.injEq] at h
        subst h
        exact write_nonblock_inv rb po v rb2 hu ht hw
  | readBlock co =>
      rw [Impl1.step] at h
      rcases hw : Impl1.rb_read_block rb co with e | ⟨out, rb2⟩
      · rw [hw] at h
        exact absurd (show (Except.error e : Except Stuck Impl1.RB) = .ok rb1 from h)
          (by simp)
      · rw [hw] at h
        replace h : (Except.ok rb2 : Except Stuck Impl1.RB) = .ok rb1 := h
        simp only [Except.ok.injEq] at h
        subst h
        exact read_block_loop_inv (co + 1) co rb [] out rb2 hu ht hw
  | readNonblock co =>
      rw [Impl1.step] at h
      rcases hw : Impl1.rb_read_nonblock rb co with e | ⟨v, got, rb2⟩
      · rw [hw] at h
        exact absurd (show (Except.error e : Except Stuck Impl1.RB) = .ok rb1 from h)
          (by simp)
      · rw [hw] at h
        replace h : (Except.ok rb2 : Except Stuck Impl1.RB) = .ok rb1 := h
        simp only [Except.ok.injEq] at h
        subst h
        exact read_nonblock_inv rb co v got rb2 hu ht hw
  | clear =>
      replace h : (Except.ok (Impl1.rb_clear rb) : Except Stuck Impl1.RB) = .ok rb1 := h
      simp only [Except.ok.injEq] at h
      subst h
      constructor
      · show (0 : Nat) ≤ rb.size
        omega
      · show (0 : Nat) < rb.size
        omega
  | loose n =>
      replace h : (Except.ok ((Impl1.rb_loose (some rb) n).2.getD rb)
          : Except Stuck Impl1.RB) = .ok rb1 := h
      simp only [Except.ok.injEq] at h
      subst h
      exact ⟨hu, ht⟩
  | clearLost =>
      replace h : (Except.ok ((Impl1.rb_clear_lost (some rb)).2.getD rb)
          : Except Stuck Impl1.RB) = .ok rb1 := h
      simp only [Except.ok.injEq] at h
      subst h
      exact ⟨hu, ht⟩
  | getLost =>
      replace h : (Except.ok rb : Except Stuck Impl1.RB) = .ok rb1 := h
      simp only [Except.ok.injEq] at h
      subst h
      exact ⟨hu, ht⟩
  | getSize =>
      replace h : (Except.ok rb : Except Stuck Impl1.RB) = .ok rb1 := h
      simp only [Except.ok.injEq] at h
      subst h
      exact ⟨hu, ht⟩
  | getUsed =>
      replace h : (Except.ok rb : Except Stuck Impl1.RB) = .ok rb1 := h
      simp only [Except.ok.injEq] at h
      subst h
      exact ⟨hu, ht⟩
  | getFree =>
      replace h : (Except.ok rb : Except Stuck Impl1.RB) = .ok rb1 := h
      simp only [Except.ok.injEq] at h
      subst h
      exact ⟨hu, ht⟩

/-- Any sequence of calls preserves the invariants. -/
theorem run_inv (ops : List Impl1.Op) : ∀ (rb rb1 : Impl1.RB),
    rb.used ≤ rb.size → rb.tail < rb.size →
    Impl1.run rb ops = .ok rb1 →
    rb1.used ≤ rb1.size ∧ rb1.tail < rb1.size := by
  induction ops with
  | nil =>
      intro rb rb1 hu ht h
      rw [Impl1.run] at h
      simp only [Except.ok.injEq] at h
      subst h
      exact ⟨hu, ht⟩
  | cons op ops ih =>
      intro rb rb1 hu ht h
      rw [Impl1.run] at h
      rcases hs : Impl1.step rb op with e | rb2
      · rw [hs] at h; exact absurd h (by simp)
      · rw [hs] at h
        have hr := step_inv rb op rb2 hu ht hs
        exact ih rb2 rb1 hr.1 hr.2 h

/-! ## Claim theorems -/

/-- C1: evaluation of part_000 at the failing input.  Capacity 10,
write 4 bytes and read them back (leaving the buffer empty with
`tail = 4`), then write the 8-byte sequence B = 11..18 — the copy must
wrap — and read 8 bytes back.  Because `_put` tests the already-reduced
index (`new_head <= size`, always true), the 2 wrapping bytes are copied
past the end of the arena and the read returns 2 stale bytes: the
round-trip delivers `[11,12,13,14,15,16,1,2] ≠ B`.  (From a buffer with
`tail = 0` the round-trip does hold, as the first two conjuncts show.) -/
theorem c1_roundtrip_wrap_corrupts :
    Impl1.rb_write_block (Impl1.rbNew 10 [0, 0, 0, 0, 0, 0, 0, 0, 0, 0]) [1, 2, 3, 4]
      = .ok (4, ⟨10, 4, 0, 0, [1, 2, 3, 4, 0, 0, 0, 0, 0, 0]⟩) ∧
    Impl1.rb_read_block (⟨10, 4, 0, 0, [1, 2, 3, 4, 0, 0, 0, 0, 0, 0]⟩ : Impl1.RB) 4
      = .ok ([1, 2, 3, 4], ⟨10, 0, 4, 0, [1, 2, 3, 4, 0, 0, 0, 0, 0, 0]⟩) ∧
    Impl1.rb_write_block (⟨10, 0, 4, 0, [1, 2, 3, 4, 0, 0, 0, 0, 0, 0]⟩ : Impl1.RB)
        [11, 12, 13, 14, 15, 16, 17, 18]
      = .ok (8, ⟨10, 8, 4, 0, [1, 2, 3, 4, 11, 12, 13, 14, 15, 16]⟩) ∧
    Impl1.rb_read_block (⟨10, 8, 4, 0, [1, 2, 3, 4, 11, 12, 13, 14, 15, 16]⟩ : Impl1.RB) 8
      = .ok ([11, 12, 13, 14, 15, 16, 1, 2],
             ⟨10, 0, 2, 0, [1, 2, 3, 4, 11, 12, 13, 14, 15, 16]⟩) ∧
    [11, 12, 13, 14, 15, 16, 1, 2] ≠ [11, 12, 13, 14, 15, 16, 17, 18] :=
  ⟨rfl, rfl, rfl, rfl, by decide⟩

/-- C5: the lost-counter contract on both variants.  part_000's
`rb_loose` accumulates 5 then 3 into 8, `rb_get_lost` reads 8,
`rb_clear_lost` returns 8 and resets, and `used`, `tail` and the arena
are untouched throughout (visible in the state literals).
ringbuffer.c's `rb_loose_data` never stores the sum back: the second call
returns 3, `rb_get_lost` still reads 0, and 0 ≠ 8. -/
theorem c5_lost_counter_two_variants :
    Impl1.rb_loose (some (Impl1.rbNew 4 [9, 9, 9, 9])) 5
      = (5, some ⟨4, 0, 0, 5, [9, 9, 9, 9]⟩) ∧
    Impl1.rb_loose (some ⟨4, 0, 0, 5, [9, 9, 9, 9]⟩) 3
      = (8, some ⟨4, 0, 0, 8, [9, 9, 9, 9]⟩) ∧
    Impl1.rb_get_lost (some ⟨4, 0, 0, 8, [9, 9, 9, 9]⟩) = 8 ∧
    Impl1.rb_clear_lost (some ⟨4, 0, 0, 8, [9, 9, 9, 9]⟩)
      = (8, some ⟨4, 0, 0, 0, [9, 9, 9, 9]⟩) ∧
    Impl2.rb_loose_data (some ⟨4, 0, 0, 0, [9, 9, 9, 9]⟩) 5
      = (5, some ⟨4, 0, 0, 0, [9, 9, 9, 9]⟩) ∧
    Impl2.rb_loose_data (some ⟨4, 0, 0, 0, [9, 9, 9, 9]⟩) 3
      = (3, some ⟨4, 0, 0, 0, [9, 9, 9, 9]⟩) ∧
    Impl2.rb_get_lost (some ⟨4, 0, 0, 0, [9, 9, 9, 9]⟩) = 0 ∧
    (0 : Nat) ≠ 8 :=
  ⟨rfl, rfl, rfl, rfl, rfl, rfl, rfl, by decide⟩

/-- C6: short-read contract of part_000's `rb_read_block`.  Capacity 10
with exactly 4 bytes written; `rb_read_block` with `max_count = 10`
returns exactly those 4 bytes.  The result is `Except.ok`, i.e. the call
returns without ever reaching the wait on `wr_cond` (waiting is modelled
as `Except.error Stuck.blocked`). -/
theorem c6_short_read (b0 b1 b2 b3 : Nat) :
    Impl1.rb_write_block (Impl1.rbNew 10 [0, 0, 0, 0, 0, 0, 0, 0, 0, 0]) [b0, b1, b2, b3]
      = .ok (4, ⟨10, 4, 0, 0, [b0, b1, b2, b3, 0, 0, 0, 0, 0, 0]⟩) ∧
    Impl1.rb_read_block (⟨10, 4, 0, 0, [b0, b1, b2, b3, 0, 0, 0, 0, 0, 0]⟩ : Impl1.RB) 10
      = .ok ([b0, b1, b2, b3], ⟨10, 0, 4, 0, [b0, b1, b2, b3, 0, 0, 0, 0, 0, 0]⟩) :=
  ⟨rfl, rfl⟩

/-- C7: destroy guard on both variants.  part_000: destroying a live
handle succeeds, frees the resources and clears the handle; a second
destroy (or destroy of a never-created handle) returns `EFAULT` and frees
nothing.  ringbuffer.c: the null check is inverted — destroying a live,
freshly initialized handle returns `EFAULT`, keeps the handle and frees
nothing (the repository's own test asserts this call returns 0), and a
`NULL` handle falls into a `NULL`-pointer dereference. -/
theorem c7_destroy_twice :
    Impl1.rb_destroy (some (Impl1.rbNew 4 [0, 0, 0, 0])) = (0, none, true) ∧
    Impl1.rb_destroy none = (EFAULT, none, false) ∧
    Impl2.rb_destroy (some ⟨4, 0, 0, 0, [0, 0, 0, 0]⟩)
      = (.fault, some ⟨4, 0, 0, 0, [0, 0, 0, 0]⟩, false) ∧
    Impl2.rb_destroy none = (.nullDeref, none, false) :=
  ⟨rfl, rfl, rfl, rfl⟩

/-- C9: capacity 0 in part_000.  Creation succeeds (is not rejected); the
non-blocking transfers do report `-E2BIG`; but `rb_write_block` of a
single byte reaches `(tail + used) % size` with `size == 0` — a modulus
by zero, i.e. undefined behaviour, modelled as `Stuck.divZero` — instead
of reporting any error. -/
theorem c9_zero_capacity_divzero :
    Impl1.rb_init none 0 [] = (0, some (Impl1.rbNew 0 [])) ∧
    Impl1.rb_write_nonblock (Impl1.rbNew 0 []) [1]
      = .ok (-(E2BIG : Int), Impl1.rbNew 0 []) ∧
    Impl1.rb_read_nonblock (Impl1.rbNew 0 []) 1
      = .ok (-(E2BIG : Int), [], Impl1.rbNew 0 []) ∧
    Impl1.rb_write_block (Impl1.rbNew 0 []) [1] = .error .divZero :=
  ⟨rfl, rfl, rfl, rfl⟩

/-- C10: on a handle whose internal pointer is unset, `rb_get_lost`,
`rb_clear_lost` and `rb_loose` all return the errno value `EFAULT` as a
positive `size_t` (in both variants for `rb_get_lost`), and a live buffer
whose counter genuinely equals `EFAULT = 14` returns the very same value,
so the two cases are indistinguishable at the call site. -/
theorem c10_lost_efault_ambiguity :
    Impl1.rb_get_lost none = EFAULT ∧
    Impl1.rb_clear_lost none = (EFAULT, none) ∧
    Impl1.rb_loose none 5 = (EFAULT, none) ∧
    Impl2.rb_get_lost none = EFAULT ∧
    0 < EFAULT ∧
    Impl1.rb_loose (some (Impl1.rbNew 2 [0, 0])) 14 = (EFAULT, some ⟨2, 0, 0, 14, [0, 0]⟩) ∧
    Impl1.rb_get_lost (some ⟨2, 0, 0, 14, [0, 0]⟩) = Impl1.rb_get_lost none :=
  ⟨rfl, rfl, rfl, rfl, by decide, rfl, rfl⟩

/-- C2 counterexample: `rb_write_asy` of ringbuffer.c does not implement
the claimed error contract.  On an empty buffer of capacity 2, a request
of 3 bytes (3 > capacity, so the claim demands `RequestTooLarge`) is
instead clamped: 2 bytes are written and 2 — a partial count, not an
error — is returned. -/
theorem c2_write_asy_partial :
    Impl2.rb_write_asy (some ⟨2, 0, 0, 0, [0, 0]⟩) [1, 2, 3]
      = ((2 : Int), some ⟨2, 0, 0, 0, [1, 2]⟩) ∧
    (2 : Int) ≠ -(E2BIG : Int) ∧ (2 : Int) ≠ -(ENOMEM : Int) ∧ (2 : Nat) ≠ 3 :=
  ⟨rfl, by decide, by decide, by decide⟩

/-- C3 counterexample: `rb_read_asy` of ringbuffer.c does not implement
the claimed error contract.  Reading 1 byte from an empty buffer (1 >
used, so the claim demands `InsufficientData`) returns 0 with the state
unchanged; and on a buffer holding 3 bytes, a request for 1 byte returns
the value 3 — the occupancy, not the requested count. -/
theorem c3_read_asy_no_error :
    Impl2.rb_read_asy (some ⟨2, 0, 0, 0, [0, 0]⟩) 1
      = some ((0 : Int), [], some ⟨2, 0, 0, 0, [0, 0]⟩) ∧
    (0 : Int) ≠ -(EAGAIN : Int) ∧
    Impl2.rb_read_asy (some ⟨4, 3, 0, 0, [5, 6, 7, 0]⟩) 1
      = some ((3 : Int), [5], some ⟨4, 3, 1, 0, [5, 6, 7, 0]⟩) ∧
    (3 : Int) ≠ 1 :=
  ⟨rfl, by decide, rfl, by decide⟩

/-- C4 counterexample: a buffer created with capacity 0 is delivered
successfully by `rb_init` of part_000, yet its state violates the claimed
invariant `0 ≤ tail < capacity` the moment the call returns. -/
theorem c4_zero_capacity_violates_invariant :
    Impl1.rb_init none 0 [] = (0, some (Impl1.rbNew 0 [])) ∧
    ¬ (Impl1.rbNew 0 []).tail < (Impl1.rbNew 0 []).size :=
  ⟨rfl, by decide⟩

/-- C8 counterexample: `rb_init` of part_000 performs no
already-initialized check.  Called on a live handle holding a buffer of
capacity 4 with 2 used bytes, it returns 0 (success, not
`AlreadyInitialized`) and silently installs a fresh buffer, discarding
the previous state. -/
theorem c8_reinit_not_rejected :
    Impl1.rb_init (some ⟨4, 2, 1, 0, [7, 7, 7, 7]⟩) 8 [0, 0, 0, 0, 0, 0, 0, 0]
      = (0, some (Impl1.rbNew 8 [0, 0, 0, 0, 0, 0, 0, 0])) ∧
    (0 : Nat) ≠ EFAULT ∧
    some (Impl1.rbNew 8 [0, 0, 0, 0, 0, 0, 0, 0]) ≠ some (⟨4, 2, 1, 0, [7, 7, 7, 7]⟩ : Impl1.RB) :=
  ⟨rfl, by decide, by decide⟩

/-- C2 (amended to part_000's `rb_write_nonblock`, the variant that
implements the claimed contract): on any buffer satisfying the invariants,
a request longer than the capacity fails with `-E2BIG`
(`RequestTooLarge`); a request that fits the capacity but exceeds the free
space `capacity - used` fails with `-ENOMEM` (`InsufficientSpace`) and
leaves the state — `used`, `tail`, the arena — unchanged (the returned
state is `rb` itself); otherwise the whole request is written: the call
returns exactly `n`, `used` grows by `n` and `tail` is untouched.  Never a
partial count. -/
theorem c2_write_nonblock_contract (rb : Impl1.RB) (po : List Nat)
    (hu : rb.used ≤ rb.size) (ht : rb.tail < rb.size) :
    (rb.size < po.length → Impl1.rb_write_nonblock rb po = .ok (-(E2BIG : Int), rb)) ∧
    (po.length ≤ rb.size → rb.size - rb.used < po.length →
      Impl1.rb_write_nonblock rb po = .ok (-(ENOMEM : Int), rb)) ∧
    (po.length ≤ rb.size - rb.used →
      ∃ rb1, Impl1.rb_write_nonblock rb po = .ok ((po.length : Int), rb1) ∧
        rb1.used = rb.used + po.length ∧ rb1.tail = rb.tail ∧ rb1.size = rb.size) := by
  refine ⟨?_, ?_, ?_⟩
  · intro h
    unfold Impl1.rb_write_nonblock
    rw [if_pos h]
  · intro h1 h2
    unfold Impl1.rb_write_nonblock
    rw [if_neg (by omega), if_neg (by omega)]
  · intro h1
    obtain ⟨rb1, hl, hus, hta, hsz⟩ := writeLoop_complete rb po hu ht h1
    refine ⟨rb1, ?_, hus, hta, hsz⟩
    unfold Impl1.rb_write_nonblock
    rw [if_neg (by omega), if_pos h1, hl]

/-- Witness for C2: a concrete buffer of capacity 3 satisfying the
invariants, on which a 4-byte non-blocking write fails with `-E2BIG`. -/
theorem c2_witness :
    (Impl1.rbNew 3 [0, 0, 0]).used ≤ (Impl1.rbNew 3 [0, 0, 0]).size ∧
    (Impl1.rbNew 3 [0, 0, 0]).tail < (Impl1.rbNew 3 [0, 0, 0]).size ∧
    Impl1.rb_write_nonblock (Impl1.rbNew 3 [0, 0, 0]) [1, 2, 3, 4]
      = .ok (-(E2BIG : Int), Impl1.rbNew 3 [0, 0, 0]) :=
  ⟨by decide, by decide,
    (c2_write_nonblock_contract (Impl1.rbNew 3 [0, 0, 0]) [1, 2, 3, 4]
      (by decide) (by decide)).1 (by decide)⟩

/-- C3 (amended to part_000's `rb_read_nonblock`, the variant that
implements the claimed contract): on any buffer satisfying the invariants,
a request larger than the capacity fails with `-E2BIG`
(`RequestTooLarge`); a request that fits the capacity but exceeds the
currently used count fails with `-EAGAIN` (`InsufficientData`) and leaves
the state unchanged; otherwise exactly `n` bytes are delivered, `used`
drops by `n` and `tail` advances by `n` modulo the capacity.  Never a
partial count. -/
theorem c3_read_nonblock_contract (rb : Impl1.RB) (co : Nat)
    (hu : rb.used ≤ rb.size) (ht : rb.tail < rb.size) :
    (rb.size < co → Impl1.rb_read_nonblock rb co = .ok (-(E2BIG : Int), [], rb)) ∧
    (co ≤ rb.size → rb.used < co →
      Impl1.rb_read_nonblock rb co = .ok (-(EAGAIN : Int), [], rb)) ∧
    (co ≤ rb.used →
      ∃ got rb1, Impl1.rb_read_nonblock rb co = .ok ((co : Int), got, rb1) ∧
        got.length = co ∧ rb1.used = rb.used - co ∧
        rb1.tail = (rb.tail + co) % rb.size ∧ rb1.size = rb.size) := by
  refine ⟨?_, ?_, ?_⟩
  · intro h
    unfold Impl1.rb_read_nonblock
    rw [if_pos h]
  · intro h1 h2
    unfold Impl1.rb_read_nonblock
    rw [if_neg (by omega), if_neg (by omega)]
  · intro h1
    obtain ⟨out, rb1, hl, hol, hou, hot, hos⟩ :=
      readLoop_spec (co + 1) co rb [] hu ht h1 (by omega)
    have hco : out.length = co := by simpa using hol
    refine ⟨out, rb1, ?_, hco, hou, hot, hos⟩
    unfold Impl1.rb_read_nonblock
    rw [if_neg (by omega), if_pos h1, hl]
    show (Except.ok ((out.length : Int), out, rb1) : Except Stuck (Int × List Nat × Impl1.RB))
        = .ok ((co : Int), out, rb1)
    rw [hco]

/-- Witness for C3: a concrete buffer of capacity 3 satisfying the
invariants, on which a 4-byte non-blocking read fails with `-E2BIG`. -/
theorem c3_witness :
    (Impl1.rbNew 3 [0, 0, 0]).used ≤ (Impl1.rbNew 3 [0, 0, 0]).size ∧
    (Impl1.rbNew 3 [0, 0, 0]).tail < (Impl1.rbNew 3 [0, 0, 0]).size ∧
    Impl1.rb_read_nonblock (Impl1.rbNew 3 [0, 0, 0]) 4
      = .ok (-(E2BIG : Int), [], Impl1.rbNew 3 [0, 0, 0]) :=
  ⟨by decide, by decide,
    (c3_read_nonblock_contract (Impl1.rbNew 3 [0, 0, 0]) 4
      (by decide) (by decide)).1 (by decide)⟩

/-- C4 (amended by the capacity > 0 proviso forced by the capacity-0
counterexample): for every buffer created with positive capacity and every
sequence of operations of the part_000 surface, `0 ≤ used ≤ capacity` and
`0 ≤ tail < capacity` hold after every call that returns (the lower bounds
are automatic for `Nat`). -/
theorem c4_invariants (size : Nat) (mem : List Nat) (ops : List Impl1.Op) (rb1 : Impl1.RB)
    (hs : 0 < size) (h : Impl1.run (Impl1.rbNew size mem) ops = .ok rb1) :
    rb1.used ≤ rb1.size ∧ rb1.tail < rb1.size :=
  run_inv ops (Impl1.rbNew size mem) rb1 (Nat.zero_le _) hs h

/-- Witness for C4: capacity 3, a non-blocking write of 2 bytes followed
by a non-blocking read of 1 byte; the resulting state satisfies the
invariants. -/
theorem c4_witness :
    0 < 3 ∧
    Impl1.run (Impl1.rbNew 3 [0, 0, 0])
        [Impl1.Op.writeNonblock [1, 2], Impl1.Op.readNonblock 1]
      = .ok ⟨3, 1, 1, 0, [1, 2, 0]⟩ ∧
    ((⟨3, 1, 1, 0, [1, 2, 0]⟩ : Impl1.RB).used ≤ (⟨3, 1, 1, 0, [1, 2, 0]⟩ : Impl1.RB).size ∧
     (⟨3, 1, 1, 0, [1, 2, 0]⟩ : Impl1.RB).tail < (⟨3, 1, 1, 0, [1, 2, 0]⟩ : Impl1.RB).size) :=
  ⟨by decide, rfl,
    c4_invariants 3 [0, 0, 0] [Impl1.Op.writeNonblock [1, 2], Impl1.Op.readNonblock 1]
      ⟨3, 1, 1, 0, [1, 2, 0]⟩ (by decide) rfl⟩

/-- C8 (amended): `rb_init` of src/ringbuffer.c does guard against
re-initialization: on any live handle it fails with `EFAULT` and leaves
the existing buffer untouched. -/
theorem c8_init_guard (rb : Impl2.RB) (size : Nat) (mem : List Nat) :
    Impl2.rb_init (some rb) size mem = (EFAULT, some rb) :=
  rfl

end RingBuffer
